import Mathlib

/-!
Verification of the assessment-recommendation backend.

Shallow embedding of the Python sources under src/backend:
`embeddings.py`, `vector_store.py`, `rag_pipeline.py`, `evaluation.py`.
Python strings are modelled as Lean `String`s manipulated through explicit
character-list helpers mirroring `str.split`, `str.strip`, `str.lower` and
the `in` substring test; Python floats are modelled as `ℚ`; Python dicts
holding assessment records are modelled as structures whose possibly-absent
keys (`url`, `test_type`, read with `dict.get`) are `Option` fields; Python
functions that may raise are modelled as `Except Unit`-valued functions, a
`try/except` block becoming a `match` on the body's result.
-/

/-! ## Python string helpers -/

/-- Model of Python `str.split(sep)` for a one-character separator, on the
character list: `"".split(c) = [""]`, separators produce empty segments. -/
def splitOnChar (c : Char) (l : List Char) : List (List Char) :=
  l.foldr
    (fun ch acc =>
      if ch = c then [] :: acc
      else
        match acc with
        | [] => [[ch]]
        | h :: t => (ch :: h) :: t)
    [[]]

/-- Python `str.split(c)` on Lean strings (single-character separator). -/
def pySplit (s : String) (c : Char) : List String :=
  (splitOnChar c s.toList).map String.mk

/-- Python `str.strip()`: drop whitespace from both ends. -/
def pyStrip (s : String) : String :=
  String.mk (((s.toList.dropWhile Char.isWhitespace).reverse.dropWhile
    Char.isWhitespace).reverse)

/-- Python `str.lower()`. -/
def pyLower (s : String) : String :=
  String.mk (s.toList.map Char.toLower)

/-- `sub` occurs as a contiguous sublist of `l`. -/
def infixCheck (sub : List Char) : List Char → Bool
  | [] => sub.isPrefixOf []
  | c :: rest => sub.isPrefixOf (c :: rest) || infixCheck sub rest

/-- Python `sub in s` substring containment test. -/
def pyContains (sub s : String) : Bool :=
  infixCheck sub.toList s.toList

/-! ## embeddings.py — fallback hash embedding (`GeminiEmbeddings._simple_embedding`)

The SHA-256 digest is treated abstractly: `_simple_embedding` takes the list
of 32 digest bytes (`hashlib.sha256(text.encode()).digest()`) as input. -/

/-- The `while len(vector) < 384: vector.extend(vector[:min(384 - len(vector), len(vector))])`
loop of `embeddings.py` lines 38–39.  The source loop diverges on an empty
vector (it never does: the digest always has 32 bytes); the `0 < v.length`
guard makes the Lean function total without changing behaviour on any
reachable input. -/
def growLoop (v : List ℚ) : List ℚ :=
  if h : v.length < 384 ∧ 0 < v.length then
    growLoop (v ++ v.take (min (384 - v.length) v.length))
  else v
termination_by 384 - v.length
decreasing_by
  simp only [List.length_append, List.length_take]
  omega

/-- The comprehension `[float((b % 100) / 100.0) for b in text_hash]`
(embeddings.py line 37). -/
def hashFloats (digest : List ℕ) : List ℚ :=
  digest.map (fun b => ((b % 100 : ℕ) : ℚ) / 100)

/-- `GeminiEmbeddings._simple_embedding` (embeddings.py lines 33–40), as a
function of the 32 SHA-256 digest bytes: map each byte `b` to
`(b % 100) / 100`, grow cyclically to at least 384, return `vector[:384]`. -/
def simple_embedding (digest : List ℕ) : List ℚ :=
  (growLoop (hashFloats digest)).take 384

/-! ## Data model

`Assessment` is the scraped record handed to `VectorStore.add_assessments`;
`Metadata` is the flat string payload built by `VectorStore._create_metadata`
(vector_store.py lines 91–101); `Candidate` is the dict rebuilt by
`VectorStore.search` (lines 70–79) and flowing through the pipeline.  The
pipeline reads `url` and `test_type` with `dict.get`, so those fields are
`Option`-valued on `Candidate` (a missing key reads as `none`, Python's
`None` / default `[]`). -/

structure Assessment where
  name : String
  url : String
  description : String
  duration : ℕ
  test_type : List String
  adaptive_support : String
  remote_support : String
deriving DecidableEq

structure Metadata where
  name : String
  url : String
  description : String
  duration : String
  test_type : String
  adaptive_support : String
  remote_support : String
deriving DecidableEq

structure Candidate where
  name : String
  url : Option String
  description : String
  duration : String
  test_type : Option (List String)
  adaptive_support : String
  remote_support : String
  distance : ℚ
deriving DecidableEq

instance : Inhabited Candidate :=
  ⟨⟨"", none, "", "", none, "", "", 0⟩⟩

/-- `r.get('test_type', [])` (rag_pipeline.py line 177). -/
def ttOf (r : Candidate) : List String :=
  r.test_type.getD []

/-! ## vector_store.py — payload encoding and `search`

`_create_metadata` stores `test_type` as `str(assessment['test_type'])`, the
Python `repr` of a list of strings; `search` re-derives the list with
`eval(metadata['test_type'])` (line 75). -/

/-- The single-quote character, used by Python `str` on a list of strings. -/
def pyQuote : String := String.singleton (Char.ofNat 39)

/-- Python `str(l)` for a list of strings none of which needs escaping
(the test-type vocabulary contains no quotes or backslashes):
`str(['a', 'b']) = "['a', 'b']"`. -/
def pyStrList (l : List String) : String :=
  "[" ++ String.intercalate ", " (l.map (fun s => pyQuote ++ s ++ pyQuote)) ++ "]"

/-- Multi-character split, fuel-structured so it reduces in the kernel; the
fuel is instantiated with the input length, which bounds the recursion
depth for a non-empty separator. -/
def splitOnSeqAux (sep : List Char) : ℕ → List Char → List Char → List (List Char)
  | _, [], cur => [cur.reverse]
  | 0, _ :: _, cur => [cur.reverse]
  | fuel + 1, ch :: rest, cur =>
    if sep.isPrefixOf (ch :: rest) then
      cur.reverse :: splitOnSeqAux sep fuel ((ch :: rest).drop sep.length) []
    else
      splitOnSeqAux sep fuel rest (ch :: cur)

/-- Split `l` on the separator sequence `sep`. -/
def splitOnSeq (sep l : List Char) : List (List Char) :=
  splitOnSeqAux sep l.length l []

/-- Model of `eval(metadata['test_type'])` (vector_store.py line 75) on the
strings produced by `pyStrList`: strip the `['` / `']` delimiters and split
on `', '`.  On a string of any other shape the Python `eval` raises (or, far
worse, executes whatever expression the string holds); both are modelled as
`Except.error`. -/
def evalStrList (s : String) : Except Unit (List String) :=
  if s = "[]" then .ok []
  else if ("[" ++ pyQuote).toList.isPrefixOf s.toList ∧
          (pyQuote ++ "]").toList.isSuffixOf s.toList ∧ 4 ≤ s.toList.length then
    .ok ((splitOnSeq (pyQuote ++ ", " ++ pyQuote).toList
      ((s.toList.drop 2).dropLast.dropLast)).map String.mk)
  else .error ()

/-- `VectorStore._create_metadata` (vector_store.py lines 91–101). -/
def create_metadata (a : Assessment) : Metadata :=
  { name := a.name
    url := a.url
    description := a.description
    duration := toString a.duration
    test_type := pyStrList a.test_type
    adaptive_support := a.adaptive_support
    remote_support := a.remote_support }

/-- `VectorStore.count` (vector_store.py line 115): the collection is
modelled as the list of stored payloads. -/
def storeCount (store : List Metadata) : ℕ := store.length

/-- The external `collection.query` call (vector_store.py lines 61–64),
modelled on its collaborator contract: asked for `n` neighbours it errors
when more neighbours than stored documents are requested, and otherwise
returns one `(payload, distance)` pair per returned neighbour, at most `n`
of them.  The ANN relevance ordering and the distance values are irrelevant
to every claim and are abstracted as stored order and distance `0`. -/
def collection_query (store : List Metadata) (n : ℕ) :
    Except Unit (List (Metadata × ℚ)) :=
  if store.length < n then .error ()
  else .ok ((store.take n).map (fun m => (m, (0 : ℚ))))

/-- The result-formatting loop of `VectorStore.search` (lines 67–79): each
payload is decoded into a `Candidate`, `test_type` via `eval`; the first
decode failure aborts the whole loop (the exception propagates to the
`except` clause). -/
def formatResults : List (Metadata × ℚ) → Except Unit (List Candidate)
  | [] => .ok []
  | (m, d) :: rest => do
    let tt ← evalStrList m.test_type
    let others ← formatResults rest
    .ok ({ name := m.name
           url := some m.url
           description := m.description
           duration := m.duration
           test_type := some tt
           adaptive_support := m.adaptive_support
           remote_support := m.remote_support
           distance := d } :: others)

/-- The `try` body of `VectorStore.search` (vector_store.py lines 60–81):
query with `n_results` clamped to `min(n_results, self.collection.count())`,
then format. -/
def searchBody (store : List Metadata) (query_embedding : List ℚ) (n_results : ℕ) :
    Except Unit (List Candidate) := do
  let res ← collection_query store (min n_results (storeCount store))
  formatResults res

/-- `VectorStore.search` (vector_store.py lines 58–85).  The function itself
never raises: any exception in the body is caught and turned into `[]`, so
the caller-visible result is always `Except.ok`. -/
def search (store : List Metadata) (query_embedding : List ℚ) (n_results : ℕ) :
    Except Unit (List Candidate) :=
  match searchBody store query_embedding n_results with
  | .ok l => .ok l
  | .error _ => .ok []

/-! ## rag_pipeline.py — query analysis parsing -/

/-- `RAGPipeline._extract_skills` (rag_pipeline.py lines 92–100): lowercase,
split the analysis into lines, and for every line containing `"skill"` and a
colon, extend the accumulator with the trimmed comma-splits of `parts[1]`
(the text between the first and the second colon). -/
def extract_skills (analysis : String) : List String :=
  (pySplit (pyLower analysis) (Char.ofNat 10)).foldl
    (fun skills line =>
      if pyContains "skill" line then
        let parts := pySplit line ':'
        if 1 < parts.length then
          skills ++ ((pySplit (parts.getD 1 "") ',').map pyStrip)
        else skills
      else skills)
    []

/-- `RAGPipeline._extract_focus_areas` (rag_pipeline.py lines 123–130):
identical shape with keyword `"focus"`. -/
def extract_focus_areas (analysis : String) : List String :=
  (pySplit (pyLower analysis) (Char.ofNat 10)).foldl
    (fun focus line =>
      if pyContains "focus" line then
        let parts := pySplit line ':'
        if 1 < parts.length then
          focus ++ ((pySplit (parts.getD 1 "") ',').map pyStrip)
        else focus
      else focus)
    []

/-- Tokens one line contributes to the extraction, per the (amended) spec
sentence: a line containing the keyword and a colon contributes the trimmed
comma-splits of the text between the first and second colons, empty tokens
included; any other line contributes nothing. -/
def lineTokens (keyword line : String) : List String :=
  if pyContains keyword line then
    let parts := pySplit line ':'
    if 1 < parts.length then (pySplit (parts.getD 1 "") ',').map pyStrip
    else []
  else []

/-- The extraction as the spec describes it: per-line token lists,
concatenated in order of appearance of the lines. -/
def extractSpec (keyword analysis : String) : List String :=
  ((pySplit (pyLower analysis) (Char.ofNat 10)).map (lineTokens keyword)).flatten

/-- The query-analysis record produced by `RAGPipeline._analyze_query`. -/
structure Analysis where
  skills : List String
  test_types : List String
  experience_level : String
  focus_areas : List String

/-! ## rag_pipeline.py — reranker -/

/-- Maximal digit runs of a character list (`re.findall(r'\d+', response)`). -/
def digitRuns : List Char → List (List Char)
  | [] => []
  | c :: rest =>
    if c.isDigit then
      match digitRuns rest with
      | [] => [[c]]
      | r :: rs =>
        match rest with
        | [] => [[c]]
        | c2 :: _ => if c2.isDigit then (c :: r) :: rs else [c] :: r :: rs
    else digitRuns rest

/-- Numeric value of a digit run. -/
def digitsToNat (l : List Char) : ℕ :=
  l.foldl (fun acc c => 10 * acc + (c.toNat - 48)) 0

/-- `RAGPipeline._parse_rankings` (rag_pipeline.py lines 166–168): every
digit run becomes `int(run) - 1` (0-based, possibly `-1`). -/
def parse_rankings (response : String) : List ℤ :=
  (digitRuns response.toList).map (fun run => (digitsToNat run : ℤ) - 1)

/-- The candidate summary sent to the model (rag_pipeline.py lines 134–135):
first 15 candidates, `name - description[:100]...` each. -/
def candidateSummary (candidates : List Candidate) : String :=
  String.intercalate (String.singleton (Char.ofNat 10))
    ((candidates.take 15).map (fun c => c.name ++ " - " ++ c.description.take 100 ++ "..."))

/-- The reranker prompt (rag_pipeline.py lines 137–144). -/
def rerankPrompt (query : String) (candidates : List Candidate) (n_results : ℕ) : String :=
  "Rank the top " ++ toString n_results ++ " relevant assessments. Query: " ++
    query ++ " Candidates: " ++ candidateSummary candidates

/-- First assembly loop (rag_pipeline.py lines 153–156): candidates indexed
by the in-range parsed rankings, in the order the model listed them. -/
def pickRanked (rankings : List ℤ) (candidates : List Candidate) : List Candidate :=
  rankings.foldl
    (fun reranked r =>
      if 0 ≤ r ∧ r < (candidates.length : ℤ) then
        reranked ++ [candidates.getD r.toNat default]
      else reranked)
    []

/-- Second assembly loop (rag_pipeline.py lines 157–159): append candidates
whose index was never mentioned while the output is shorter than
`n_results`. -/
def fillUnranked (rankings : List ℤ) (candidates : List Candidate)
    (n_results : ℕ) (reranked : List Candidate) : List Candidate :=
  (candidates.enum.foldl
    (fun acc ic =>
      if ¬ ((ic.1 : ℤ) ∈ rankings) ∧ acc.length < n_results then acc ++ [ic.2]
      else acc)
    reranked)

/-- The `try` body of `RAGPipeline._rerank_and_filter` (rag_pipeline.py
lines 133–160), over an oracle `gen` for the fallible generative call. -/
def rerankBody (gen : String → Except Unit String) (query : String)
    (analysis : Analysis) (candidates : List Candidate) (n_results : ℕ) :
    Except Unit (List Candidate) := do
  let text ← gen (rerankPrompt query candidates n_results)
  let rankings := parse_rankings text
  .ok (fillUnranked rankings candidates n_results (pickRanked rankings candidates))

/-- `RAGPipeline._rerank_and_filter` (rag_pipeline.py lines 132–164): any
exception in the body is caught and the original candidate list returned, so
the caller always receives `Except.ok`. -/
def rerank_and_filter (gen : String → Except Unit String) (query : String)
    (analysis : Analysis) (candidates : List Candidate) (n_results : ℕ) :
    Except Unit (List Candidate) :=
  match rerankBody gen query analysis candidates n_results with
  | .ok l => .ok l
  | .error _ => .ok candidates

/-! ## rag_pipeline.py — diversity balancer (`_balance_recommendations`) -/

/-- `by_type[t]` (rag_pipeline.py lines 175–178): the dict maps each
category to the recommendations carrying it, in recommendation order. -/
def byType (recs : List Candidate) (t : String) : List Candidate :=
  recs.filter (fun r => (ttOf r).contains t)

/-- One iteration of the diversity loop (rag_pipeline.py lines 182–188):
for category `t`, append the first recommendation of that category whose
`url` is unseen, if any, and mark its `url` seen. -/
def divStep (recs : List Candidate) (st : List Candidate × List (Option String))
    (t : String) : List Candidate × List (Option String) :=
  match (byType recs t).find? (fun r => ! st.2.contains r.url) with
  | some r => (st.1 ++ [r], st.2 ++ [r.url])
  | none => st

/-- The full diversity loop, threading `(balanced, seen)` through the
requested categories in order. -/
def diversityFold (recs : List Candidate) (req_types : List String) :
    List Candidate × List (Option String) :=
  req_types.foldl (divStep recs) ([], [])

/-- The diversity picks: the `balanced` list as it stands after the first
loop of `_balance_recommendations`. -/
def diversityPicks (recs : List Candidate) (req_types : List String) : List Candidate :=
  (diversityFold recs req_types).1

/-- The tail loop (rag_pipeline.py lines 189–192), threading
`(balanced, seen)` through the recommendations in rank order. -/
def tailFold (recs : List Candidate) (st : List Candidate × List (Option String)) :
    List Candidate × List (Option String) :=
  recs.foldl
    (fun st r => if st.2.contains r.url then st else (st.1 ++ [r], st.2 ++ [r.url]))
    st

/-- The items the tail loop appends, as a function of the seen-set alone. -/
def tailSelect : List Candidate → List (Option String) → List Candidate
  | [], _ => []
  | r :: rest, seen =>
    if seen.contains r.url then tailSelect rest seen
    else r :: tailSelect rest (seen ++ [r.url])

/-- `RAGPipeline._balance_recommendations` (rag_pipeline.py lines 170–193),
as a function of the recommendations and `analysis.get('test_types', [])`. -/
def balance_recommendations (recs : List Candidate) (req_types : List String) :
    List Candidate :=
  if req_types.length ≤ 1 then recs
  else (tailFold recs (diversityFold recs req_types)).1

/-! ## rag_pipeline.py — orchestrator (`recommend`) -/

/-- The `try` body of `RAGPipeline.recommend` (rag_pipeline.py lines 27–52).
The five pipeline stages are the collaborator methods the orchestrator
composes; each is modelled as an arbitrary fallible computation, since in
the source any of them may raise (the orchestrator's `try/except` is exactly
the boundary under scrutiny).  Mirrors the source: analyse, embed, search
with a fixed over-fetch of 20, return `[]` on no candidates, rerank,
balance, truncate to `n_results`. -/
def recommendBody (analyze : Except Unit Analysis) (embed : Except Unit (List ℚ))
    (searchF : List ℚ → ℕ → Except Unit (List Candidate))
    (rerankF : Analysis → List Candidate → ℕ → Except Unit (List Candidate))
    (balanceF : List Candidate → Analysis → Except Unit (List Candidate))
    (n_results : ℕ) : Except Unit (List Candidate) := do
  let query_analysis ← analyze
  let query_embedding ← embed
  let candidates ← searchF query_embedding 20
  if candidates = [] then .ok []
  else do
    let recommendations ← rerankF query_analysis candidates n_results
    let balanced ← balanceF recommendations query_analysis
    .ok (balanced.take n_results)

/-- `RAGPipeline.recommend` (rag_pipeline.py lines 26–56): the whole body
runs inside `try`, and the `except Exception` clause converts any raised
exception into the empty list, so the caller always receives `Except.ok`. -/
def recommend (analyze : Except Unit Analysis) (embed : Except Unit (List ℚ))
    (searchF : List ℚ → ℕ → Except Unit (List Candidate))
    (rerankF : Analysis → List Candidate → ℕ → Except Unit (List Candidate))
    (balanceF : List Candidate → Analysis → Except Unit (List Candidate))
    (n_results : ℕ) : Except Unit (List Candidate) :=
  match recommendBody analyze embed searchF rerankF balanceF n_results with
  | .ok l => .ok l
  | .error _ => .ok []

/-! ## evaluation.py — `EvaluationMetrics.calculate_recall_at_k` -/

/-- `sum(1 for url in predicted_k if url in relevant)` (evaluation.py line 21). -/
def countRelevantInTopK (predicted relevant : List String) (k : ℕ) : ℕ :=
  ((predicted.take k).filter (fun url => relevant.contains url)).length

/-- `EvaluationMetrics.calculate_recall_at_k` (evaluation.py lines 12–26). -/
def calculate_recall_at_k (predicted relevant : List String) (k : ℕ) : ℚ :=
  if relevant = [] then 0
  else (countRelevantInTopK predicted relevant k : ℚ) / (relevant.length : ℚ)

/-! ## Helper lemmas -/

theorem formatResults_length {l : List (Metadata × ℚ)} {res : List Candidate}
    (h : formatResults l = .ok res) : res.length = l.length := by
  induction l generalizing res with
  | nil =>
    simp only [formatResults] at h
    cases h
    rfl
  | cons md rest ih =>
    obtain ⟨m, d⟩ := md
    simp only [formatResults] at h
    cases hev : evalStrList m.test_type with
    | error e => rw [hev] at h; cases h
    | ok tt =>
      rw [hev] at h
      cases hrest : formatResults rest with
      | error e =>
        rw [hrest] at h
        simp only [bind, Except.bind] at h
        cases h
      | ok others =>
        rw [hrest] at h
        simp only [bind, Except.bind] at h
        cases h
        simp [ih hrest]

/-! ## Claim C1 — orchestrator error boundary -/

/-- C1: for every set of pipeline-stage behaviours and every `n_results`,
`recommend` always returns normally (`Except.ok`), and whenever any stage of
the body (query analysis, embedding, search, rerank, or balance) raises, the
caught exception is converted to the empty list. -/
theorem recommend_catches_pipeline_exceptions
    (analyze : Except Unit Analysis) (embed : Except Unit (List ℚ))
    (searchF : List ℚ → ℕ → Except Unit (List Candidate))
    (rerankF : Analysis → List Candidate → ℕ → Except Unit (List Candidate))
    (balanceF : List Candidate → Analysis → Except Unit (List Candidate))
    (n_results : ℕ) :
    (∃ l, recommend analyze embed searchF rerankF balanceF n_results = Except.ok l) ∧
    (∀ e, recommendBody analyze embed searchF rerankF balanceF n_results = Except.error e →
      recommend analyze embed searchF rerankF balanceF n_results = Except.ok []) := by
  constructor
  · cases h : recommendBody analyze embed searchF rerankF balanceF n_results with
    | ok l => exact ⟨l, by simp [recommend, h]⟩
    | error e => exact ⟨[], by simp [recommend, h]⟩
  · intro e he
    simp [recommend, he]

/-- Witness for C1: with a failing query-analysis stage, `recommend`
returns `Except.ok []`. -/
theorem recommend_catches_pipeline_exceptions_witness :
    recommend (Except.error ()) (Except.ok []) (fun _ _ => Except.ok [])
      (fun _ _ _ => Except.ok []) (fun _ _ => Except.ok []) 10 = Except.ok [] :=
  (recommend_catches_pipeline_exceptions (Except.error ()) (Except.ok [])
    (fun _ _ => Except.ok []) (fun _ _ _ => Except.ok []) (fun _ _ => Except.ok [])
    10).2 () rfl

/-! ## Claim C3 — reranker failure policy -/

/-- C3: `_rerank_and_filter` always returns normally, and whenever its body
(the generative call or the ranking parse) raises, the original candidate
list is returned unchanged — same elements, same order, same length. -/
theorem rerank_failure_returns_candidates
    (gen : String → Except Unit String) (query : String) (analysis : Analysis)
    (candidates : List Candidate) (n_results : ℕ) :
    (∃ l, rerank_and_filter gen query analysis candidates n_results = Except.ok l) ∧
    (∀ e, rerankBody gen query analysis candidates n_results = Except.error e →
      rerank_and_filter gen query analysis candidates n_results = Except.ok candidates) := by
  constructor
  · cases h : rerankBody gen query analysis candidates n_results with
    | ok l => exact ⟨l, by simp [rerank_and_filter, h]⟩
    | error e => exact ⟨candidates, by simp [rerank_and_filter, h]⟩
  · intro e he
    simp [rerank_and_filter, he]

/-- Witness for C3: a failing generative call returns the one-candidate
input list unchanged. -/
theorem rerank_failure_returns_candidates_witness :
    rerank_and_filter (fun _ => Except.error ()) "java developer"
      ⟨[], ["Knowledge & Skills"], "Mid", []⟩ [default] 5 = Except.ok [default] :=
  (rerank_failure_returns_candidates (fun _ => Except.error ()) "java developer"
    ⟨[], ["Knowledge & Skills"], "Mid", []⟩ [default] 5).2 () rfl

/-! ## Claim C5 — search clamping -/

/-- C5: `search` clamps the requested neighbour count to
`min(n_results, count())` — querying with the clamped count is
indistinguishable from querying with the raw one — and it always returns
normally with at most `count()` results, even when `n_results` exceeds the
number of stored documents or the index is empty. -/
theorem search_clamps_and_never_raises (store : List Metadata)
    (query_embedding : List ℚ) (k : ℕ) :
    ∃ l, search store query_embedding k = Except.ok l ∧
      l.length ≤ storeCount store ∧
      search store query_embedding k =
        search store query_embedding (min k (storeCount store)) := by
  have hmm : min (min k (storeCount store)) (storeCount store) =
      min k (storeCount store) := by omega
  have hsame : searchBody store query_embedding k =
      searchBody store query_embedding (min k (storeCount store)) := by
    simp only [searchBody, hmm]
  have hq : collection_query store (min k (storeCount store)) =
      .ok ((store.take (min k (storeCount store))).map (fun m => (m, (0 : ℚ)))) := by
    simp only [collection_query, storeCount]
    rw [if_neg (by omega)]
  have hbody : searchBody store query_embedding k =
      formatResults ((store.take (min k (storeCount store))).map
        (fun m => (m, (0 : ℚ)))) := by
    simp only [searchBody, hq, bind, Except.bind]
  have hclamp : search store query_embedding k =
      search store query_embedding (min k (storeCount store)) := by
    unfold search
    rw [hsame]
  cases hfr : formatResults ((store.take (min k (storeCount store))).map
      (fun m => (m, (0 : ℚ)))) with
  | ok l =>
    refine ⟨l, ?_, ?_, hclamp⟩
    · unfold search
      rw [hbody, hfr]
    · have hlen := formatResults_length hfr
      rw [hlen]
      simp only [List.length_map, List.length_take, storeCount]
      omega
  | error e =>
    refine ⟨[], ?_, by simp, hclamp⟩
    unfold search
    rw [hbody, hfr]

/-! ## Claim C9 — Recall@K worked example -/

/-- C9: on `predicted = [url1, url2, url3]`, `relevant = [url1, url3, url4]`
and `k = 2`, `calculate_recall_at_k` returns exactly 1/3: one of the three
relevant urls appears among the top two predictions. -/
theorem recall_at_k_example :
    calculate_recall_at_k ["url1", "url2", "url3"] ["url1", "url3", "url4"] 2
      = 1 / 3 := by
  have h1 : countRelevantInTopK ["url1", "url2", "url3"] ["url1", "url3", "url4"] 2
      = 1 := by decide
  simp only [calculate_recall_at_k, h1]
  rw [if_neg (by decide)]
  norm_num

/-! ## Claim C10 — Recall@K guards its division -/

/-- C10: with an empty relevant list `calculate_recall_at_k` returns 0
without dividing, and the division by the length of the relevant list is
reached only when that length is positive. -/
theorem recall_empty_relevant :
    (∀ (predicted : List String) (k : ℕ),
      calculate_recall_at_k predicted [] k = 0) ∧
    (∀ (predicted relevant : List String) (k : ℕ), relevant ≠ [] →
      0 < relevant.length ∧
      calculate_recall_at_k predicted relevant k =
        (countRelevantInTopK predicted relevant k : ℚ) / (relevant.length : ℚ)) := by
  constructor
  · intro p k
    simp [calculate_recall_at_k]
  · intro p r k hr
    exact ⟨List.length_pos.mpr hr, by simp [calculate_recall_at_k, hr]⟩

/-- Witness for C10's guarded branch at a concrete non-empty relevant
list. -/
theorem recall_empty_relevant_witness :
    0 < (["u1"] : List String).length ∧
    calculate_recall_at_k [] ["u1"] 5 =
      (countRelevantInTopK [] ["u1"] 5 : ℚ) / (((["u1"] : List String).length : ℕ) : ℚ) :=
  recall_empty_relevant.2 [] ["u1"] 5 (by decide)

/-! ## Claim C2 — fallback hash embedding -/

/-- `base` concatenated with itself `k` times: the shape the growth loop
preserves. -/
def flattenRep (base : List ℚ) (k : ℕ) : List ℚ :=
  (List.replicate k base).flatten

theorem flattenRep_succ (base : List ℚ) (k : ℕ) :
    flattenRep base (k + 1) = base ++ flattenRep base k := by
  simp [flattenRep, List.replicate_succ]

theorem flattenRep_length (base : List ℚ) (k : ℕ) (hb : base.length = 32) :
    (flattenRep base k).length = 32 * k := by
  induction k with
  | zero => simp [flattenRep]
  | succ n ih =>
    rw [flattenRep_succ]
    simp only [List.length_append, ih, hb]
    ring

theorem flattenRep_append (base : List ℚ) (k m : ℕ) :
    flattenRep base k ++ flattenRep base m = flattenRep base (k + m) := by
  simp [flattenRep, ← List.flatten_append, ← List.replicate_add]

theorem flattenRep_take (base : List ℚ) (hb : base.length = 32) :
    ∀ m k, m ≤ k → (flattenRep base k).take (32 * m) = flattenRep base m := by
  intro m
  induction m with
  | zero =>
    intro k _
    simp [flattenRep]
  | succ n ih =>
    intro k hk
    obtain ⟨k', rfl⟩ : ∃ k', k = k' + 1 := ⟨k - 1, by omega⟩
    rw [flattenRep_succ base k', flattenRep_succ base n,
      List.take_append_eq_append_take, List.take_of_length_le (by rw [hb]; omega),
      hb, show 32 * (n + 1) - 32 = 32 * n by ring_nf; omega, ih k' (by omega)]

theorem growLoop_done (v : List ℚ) (h : ¬ v.length < 384) : growLoop v = v := by
  rw [growLoop.eq_def]
  exact dif_neg (fun hc => h hc.1)

theorem growLoop_step (base : List ℚ) (hb : base.length = 32) (k m : ℕ)
    (hk : 32 * k < 384) (h0 : 0 < k)
    (hmin : min (384 - 32 * k) (32 * k) = 32 * m) (hm : m ≤ k) :
    growLoop (flattenRep base k) = growLoop (flattenRep base (k + m)) := by
  have hlen := flattenRep_length base k hb
  have hc : (flattenRep base k).length < 384 ∧ 0 < (flattenRep base k).length := by
    rw [hlen]
    omega
  rw [growLoop.eq_def, dif_pos hc, hlen, hmin, flattenRep_take base hb m k hm,
    flattenRep_append]

theorem flattenRep_getD (base : List ℚ) (hb : base.length = 32) :
    ∀ k i, i < 32 * k → (flattenRep base k).getD i 0 = base.getD (i % 32) 0 := by
  intro k
  induction k with
  | zero =>
    intro i hi
    omega
  | succ n ih =>
    intro i hi
    rw [flattenRep_succ]
    by_cases hlt : i < 32
    · rw [List.getD_append base (flattenRep base n) 0 i (by rw [hb]; omega),
        Nat.mod_eq_of_lt hlt]
    · rw [List.getD_append_right base (flattenRep base n) 0 i (by rw [hb]; omega),
        hb, ih (i - 32) (by omega), ← Nat.mod_eq_sub_mod (by omega)]

/-- C2: for a 32-byte digest, the fallback embedding has length exactly 384,
every component lies in `[0, 1)`, and the vector is the 32-entry sequence
`(byte % 100) / 100` repeated cyclically and truncated to 384 — both as the
12-fold concatenation of the base sequence and index-wise as
`v[i] = base[i % 32]`. -/
theorem simple_embedding_spec (digest : List ℕ) (h : digest.length = 32) :
    (simple_embedding digest).length = 384 ∧
    (∀ x ∈ simple_embedding digest, 0 ≤ x ∧ x < 1) ∧
    simple_embedding digest = (List.replicate 12 (hashFloats digest)).flatten ∧
    (∀ i < 384, (simple_embedding digest).getD i 0 =
      (hashFloats digest).getD (i % 32) 0) := by
  have hb : (hashFloats digest).length = 32 := by
    simp [hashFloats, h]
  have hflat1 : flattenRep (hashFloats digest) 1 = hashFloats digest := by
    simp [flattenRep]
  have e1 : growLoop (flattenRep (hashFloats digest) 1) =
      growLoop (flattenRep (hashFloats digest) 2) :=
    growLoop_step (hashFloats digest) hb 1 1 (by omega) (by omega) (by omega) (by omega)
  have e2 : growLoop (flattenRep (hashFloats digest) 2) =
      growLoop (flattenRep (hashFloats digest) 4) :=
    growLoop_step (hashFloats digest) hb 2 2 (by omega) (by omega) (by omega) (by omega)
  have e3 : growLoop (flattenRep (hashFloats digest) 4) =
      growLoop (flattenRep (hashFloats digest) 8) :=
    growLoop_step (hashFloats digest) hb 4 4 (by omega) (by omega) (by omega) (by omega)
  have e4 : growLoop (flattenRep (hashFloats digest) 8) =
      growLoop (flattenRep (hashFloats digest) 12) :=
    growLoop_step (hashFloats digest) hb 8 4 (by omega) (by omega) (by omega) (by omega)
  have efix : growLoop (flattenRep (hashFloats digest) 12) = flattenRep (hashFloats digest) 12 :=
    growLoop_done _ (by rw [flattenRep_length _ 12 hb]; omega)
  have hse : simple_embedding digest = flattenRep (hashFloats digest) 12 := by
    rw [simple_embedding]
    conv_lhs => rw [← hflat1, e1, e2, e3, e4, efix]
    rw [List.take_of_length_le (by rw [flattenRep_length _ 12 hb])]
  refine ⟨?_, ?_, ?_, ?_⟩
  · rw [hse, flattenRep_length _ 12 hb]
  · intro x hx
    rw [hse] at hx
    have hxb : x ∈ hashFloats digest := by
      simp only [flattenRep, List.mem_flatten, List.mem_replicate] at hx
      obtain ⟨l, ⟨-, rfl⟩, hxl⟩ := hx
      exact hxl
    simp only [hashFloats, List.mem_map] at hxb
    obtain ⟨b, -, rfl⟩ := hxb
    constructor
    · positivity
    · rw [div_lt_one (by norm_num)]
      exact_mod_cast Nat.mod_lt b (by norm_num)
  · rw [hse]
    rfl
  · intro i hi
    rw [hse]
    exact flattenRep_getD (hashFloats digest) hb 12 i (by omega)

/-- Witness for C2 at the concrete digest `replicate 32 7`. -/
theorem simple_embedding_spec_witness :
    (List.replicate 32 7).length = 32 ∧
    (simple_embedding (List.replicate 32 7)).length = 384 :=
  ⟨by decide, (simple_embedding_spec (List.replicate 32 7) (by decide)).1⟩

/-! ## Claims C4 and C7 — diversity balancer -/

theorem contains_true_iff_mem {α : Type} [BEq α] [LawfulBEq α] {l : List α} {a : α} :
    l.contains a = true ↔ a ∈ l :=
  List.elem_iff

/-- Invariant of the diversity loop: the seen-set is exactly the urls of the
picks so far, every pick comes from the recommendation list and carries a
non-empty `test_type`, and the seen urls are pairwise distinct. -/
def DivInv (recs : List Candidate) (st : List Candidate × List (Option String)) : Prop :=
  st.2 = st.1.map Candidate.url ∧
  (∀ x ∈ st.1, x ∈ recs ∧ ttOf x ≠ []) ∧
  st.2.Nodup

theorem divStep_inv (recs : List Candidate) (st : List Candidate × List (Option String))
    (t : String) (h : DivInv recs st) : DivInv recs (divStep recs st t) := by
  unfold divStep
  cases hf : (byType recs t).find? (fun r => ! st.2.contains r.url) with
  | none => exact h
  | some r =>
    obtain ⟨hseen, hmem, hnd⟩ := h
    have hr1 : r ∈ byType recs t := List.mem_of_find?_eq_some hf
    have hr2 := List.find?_some hf
    have hrin : r ∈ recs ∧ ((ttOf r).contains t) = true := by
      simpa [byType, List.mem_filter] using hr1
    have hurl : r.url ∉ st.2 := by
      have h3 : st.2.contains r.url = false := by
        cases hb : st.2.contains r.url
        · rfl
        · rw [hb] at hr2
          exact absurd hr2 (by decide)
      intro hmem2
      rw [contains_true_iff_mem.mpr hmem2] at h3
      cases h3
    refine ⟨?_, ?_, ?_⟩
    · simp [hseen]
    · intro x hx
      rcases List.mem_append.mp hx with hx | hx
      · exact hmem x hx
      · have hx' : x = r := by simpa using hx
        subst hx'
        exact ⟨hrin.1, List.ne_nil_of_mem (contains_true_iff_mem.mp hrin.2)⟩
    · rw [List.nodup_append]
      exact ⟨hnd, List.nodup_singleton _, by simpa using hurl⟩

theorem diversityFold_inv (recs : List Candidate) (req_types : List String) :
    DivInv recs (diversityFold recs req_types) := by
  have haux : ∀ (l : List String) st, DivInv recs st →
      DivInv recs (l.foldl (divStep recs) st) := by
    intro l
    induction l with
    | nil => intro st h; exact h
    | cons t ts ih => intro st h; exact ih _ (divStep_inv recs st t h)
  exact haux req_types ([], []) ⟨rfl, by simp, List.nodup_nil⟩

theorem tailFold_fst (recs : List Candidate) :
    ∀ st : List Candidate × List (Option String),
      (tailFold recs st).1 = st.1 ++ tailSelect recs st.2 := by
  induction recs with
  | nil => intro st; simp [tailFold, tailSelect]
  | cons r rest ih =>
    intro st
    simp only [tailFold, List.foldl_cons, tailSelect]
    by_cases hc : st.2.contains r.url
    · rw [if_pos hc, if_pos hc]
      exact ih st
    · rw [if_neg hc, if_neg hc]
      rw [show (List.foldl
          (fun st r => if st.2.contains r.url = true then st
            else (st.1 ++ [r], st.2 ++ [r.url])) (st.1 ++ [r], st.2 ++ [r.url]) rest)
          = tailFold rest (st.1 ++ [r], st.2 ++ [r.url]) from rfl,
        ih (st.1 ++ [r], st.2 ++ [r.url])]
      simp

theorem tailSelect_sublist (recs : List Candidate) :
    ∀ seen : List (Option String), (tailSelect recs seen).Sublist recs := by
  induction recs with
  | nil => intro seen; simp [tailSelect]
  | cons r rest ih =>
    intro seen
    simp only [tailSelect]
    by_cases hc : seen.contains r.url
    · rw [if_pos hc]
      exact (ih seen).cons r
    · rw [if_neg hc]
      exact (ih _).cons₂ r

theorem tailSelect_eq_filter (recs : List Candidate)
    (h : (recs.map Candidate.url).Nodup) :
    ∀ seen : List (Option String),
      tailSelect recs seen = recs.filter (fun r => ! seen.contains r.url) := by
  induction recs with
  | nil => intro seen; simp [tailSelect]
  | cons r rest ih =>
    have hnotin : r.url ∉ rest.map Candidate.url := by
      rw [List.map_cons, List.nodup_cons] at h
      exact h.1
    have hnd' : (rest.map Candidate.url).Nodup := by
      rw [List.map_cons, List.nodup_cons] at h
      exact h.2
    intro seen
    simp only [tailSelect, List.filter_cons]
    by_cases hm : r.url ∈ seen
    · have hc : seen.contains r.url = true := contains_true_iff_mem.mpr hm
      rw [if_pos hc, hc]
      simp only [Bool.not_true]
      rw [if_neg Bool.false_ne_true]
      exact ih hnd' seen
    · have hc : seen.contains r.url = false := by
        cases hb : seen.contains r.url
        · rfl
        · exact absurd (contains_true_iff_mem.mp hb) hm
      rw [if_neg (by rw [hc]; exact Bool.false_ne_true), hc]
      simp only [Bool.not_false, if_true]
      rw [ih hnd' (seen ++ [r.url])]
      congr 1
      apply List.filter_congr
      intro x hx
      have hne : x.url ≠ r.url := fun he => hnotin (he ▸ List.mem_map_of_mem Candidate.url hx)
      by_cases hx2 : x.url ∈ seen
      · rw [contains_true_iff_mem.mpr (List.mem_append_left _ hx2),
          contains_true_iff_mem.mpr hx2]
      · have h1 : (seen ++ [r.url]).contains x.url = false := by
          cases hb : (seen ++ [r.url]).contains x.url
          · rfl
          · rcases List.mem_append.mp (contains_true_iff_mem.mp hb) with hin | hin
            · exact absurd hin hx2
            · exact absurd (by simpa using hin) hne
        have h2 : seen.contains x.url = false := by
          cases hb : seen.contains x.url
          · rfl
          · exact absurd (contains_true_iff_mem.mp hb) hx2
        rw [h1, h2]

/-- Concrete candidate with a url, matching only `Personality & Behavior`. -/
def candA : Candidate :=
  ⟨"a", some "url-a", "", "", some ["Personality & Behavior"], "", "", 0⟩

/-- Concrete candidate lacking a url, matching `Knowledge & Skills`. -/
def candB : Candidate :=
  ⟨"b", none, "", "", some ["Knowledge & Skills"], "", "", 0⟩

/-- Concrete candidate used twice to exhibit url-duplicate dropping. -/
def candDup : Candidate :=
  ⟨"d", some "url-d", "", "", some ["Knowledge & Skills"], "", "", 0⟩

/-- C4 counterexample: an input holding the same item (hence the same url)
twice is not permuted but deduplicated — the output has one element where
the input has two, so it is not a permutation of the input. -/
theorem balance_perm_counterexample :
    ¬ (balance_recommendations [candDup, candDup]
        ["Knowledge & Skills", "Personality & Behavior"]).Perm [candDup, candDup] := by
  intro hp
  exact absurd hp.length_eq (by decide)

/-- C4 (amended): whenever the values of the `url` key are pairwise distinct
across the input (the data model declares `url` a unique primary key), the
output of `_balance_recommendations` is a permutation of its input — no item
added, none dropped, multiplicities preserved. -/
theorem balance_perm_of_distinct_urls (recs : List Candidate) (req_types : List String)
    (h : (recs.map Candidate.url).Nodup) :
    (balance_recommendations recs req_types).Perm recs := by
  by_cases hreq : req_types.length ≤ 1
  · simp [balance_recommendations, hreq]
  · obtain ⟨hseen, hmem, hnd⟩ := diversityFold_inv recs req_types
    rw [balance_recommendations, if_neg hreq, tailFold_fst,
      tailSelect_eq_filter recs h, hseen]
    have hndrecs : recs.Nodup := h.of_map
    have hndpicks : (diversityFold recs req_types).1.Nodup := by
      have hmapnd : ((diversityFold recs req_types).1.map Candidate.url).Nodup :=
        hseen ▸ hnd
      exact hmapnd.of_map
    have hperm1 : (diversityFold recs req_types).1.Perm
        (recs.filter
          (fun r => ((diversityFold recs req_types).1.map Candidate.url).contains r.url)) := by
      rw [List.perm_ext_iff_of_nodup hndpicks (hndrecs.filter _)]
      intro a
      constructor
      · intro ha
        rw [List.mem_filter]
        exact ⟨(hmem a ha).1,
          contains_true_iff_mem.mpr (List.mem_map_of_mem _ ha)⟩
      · intro ha
        rw [List.mem_filter] at ha
        obtain ⟨hain, hacont⟩ := ha
        obtain ⟨b, hb, hburl⟩ := List.mem_map.mp (contains_true_iff_mem.mp hacont)
        have hba : b = a := List.inj_on_of_nodup_map h (hmem b hb).1 hain hburl
        exact hba ▸ hb
    exact (hperm1.append_right _).trans (List.filter_append_perm _ recs)

/-- Witness for C4's amended theorem at a concrete two-element input with
distinct url keys. -/
theorem balance_perm_of_distinct_urls_witness :
    (balance_recommendations [candA, candB]
        ["Knowledge & Skills", "Personality & Behavior"]).Perm [candA, candB] :=
  balance_perm_of_distinct_urls [candA, candB]
    ["Knowledge & Skills", "Personality & Behavior"] (by decide)

/-- C7 counterexample: `candB` lacks a url, yet it is chosen as a diversity
pick (its missing url is keyed by the `None` sentinel) and heads the output
instead of falling through to the appended tail. -/
theorem balance_urlless_pick_counterexample :
    candB.url = none ∧
    candB ∈ diversityPicks [candA, candB] ["Knowledge & Skills", "Personality & Behavior"] ∧
    balance_recommendations [candA, candB] ["Knowledge & Skills", "Personality & Behavior"]
      = [candB, candA] := by
  refine ⟨rfl, ?_, ?_⟩
  · decide
  · decide

/-- C7 (amended): with two or more requested categories, the output of
`_balance_recommendations` is the diversity head followed by a tail that is
a sublist of the input in original rank order, and every diversity pick
carries a non-empty `test_type` — so an item lacking `test_type` is never a
diversity pick and appears only in the tail.  (An item lacking only a `url`
can still be picked: missing urls are keyed by the `None` sentinel, as the
counterexample shows.) -/
theorem balance_head_tail_decomposition (recs : List Candidate) (req_types : List String)
    (h2 : 2 ≤ req_types.length) :
    balance_recommendations recs req_types =
      diversityPicks recs req_types ++
        tailSelect recs (diversityFold recs req_types).2 ∧
    (tailSelect recs (diversityFold recs req_types).2).Sublist recs ∧
    (∀ r ∈ diversityPicks recs req_types, ttOf r ≠ []) := by
  refine ⟨?_, tailSelect_sublist recs _, ?_⟩
  · rw [balance_recommendations, if_neg (by omega), tailFold_fst]
    rfl
  · intro r hr
    exact ((diversityFold_inv recs req_types).2.1 r hr).2

/-- Witness for C7's amended theorem at a concrete input with two requested
categories. -/
theorem balance_head_tail_decomposition_witness :
    balance_recommendations [candA, candB] ["Knowledge & Skills", "Personality & Behavior"] =
      diversityPicks [candA, candB] ["Knowledge & Skills", "Personality & Behavior"] ++
        tailSelect [candA, candB]
          (diversityFold [candA, candB] ["Knowledge & Skills", "Personality & Behavior"]).2 :=
  (balance_head_tail_decomposition [candA, candB]
    ["Knowledge & Skills", "Personality & Behavior"] (by decide)).1

/-! ## Claim C6 — payload round-trip and the decode path -/

/-- A concrete assessment carrying the full test-type vocabulary. -/
def sampleAssessment : Assessment :=
  ⟨"Java Test", "https://example.com/java", "desc", 45,
    ["Knowledge & Skills", "Personality & Behavior", "Cognitive", "General Assessment"],
    "Yes", "No"⟩

/-- C6 (round-trip half): the stored `test_type` payload written by
`_create_metadata` decodes back to the identical ordered list, both for the
full category vocabulary and for the empty list; a stored string of any
other shape reaches the generic-evaluator path — in the model an error, in
the source an `eval` of whatever expression the string holds. -/
theorem test_type_roundtrip :
    evalStrList (create_metadata sampleAssessment).test_type
        = Except.ok sampleAssessment.test_type ∧
    evalStrList (pyStrList []) = Except.ok [] ∧
    evalStrList "__import__" = Except.error () :=
  ⟨rfl, rfl, rfl⟩

/-! ## Claim C8 — skill and focus extraction -/

theorem extract_fold (keyword : String) (lines : List String) :
    ∀ acc : List String,
      lines.foldl
        (fun acc line =>
          if pyContains keyword line then
            let parts := pySplit line ':'
            if 1 < parts.length then
              acc ++ ((pySplit (parts.getD 1 "") ',').map pyStrip)
            else acc
          else acc) acc
      = acc ++ (lines.map (lineTokens keyword)).flatten := by
  induction lines with
  | nil =>
    intro acc
    simp
  | cons l ls ih =>
    intro acc
    rw [List.foldl_cons, ih, List.map_cons, List.flatten_cons, ← List.append_assoc]
    congr 1
    simp only [lineTokens]
    by_cases h1 : pyContains keyword l
    · simp only [if_pos h1]
      by_cases h2 : 1 < (pySplit l ':').length
      · simp only [if_pos h2]
      · simp only [if_neg h2, List.append_nil]
    · simp only [if_neg h1, List.append_nil]

/-- C8 counterexample: on the analysis line `"skills: ,x:y"` the extraction
returns `["", "x"]` — it emits the empty-string token (nothing precedes the
comma) and it splits only the text between the first and second colons
(token `"x"`, not `"x:y"`), contradicting the claim that only non-empty
tokens of the post-colon remainder are collected. -/
theorem extract_skills_counterexample :
    extract_skills "skills: ,x:y" = ["", "x"] ∧
    "" ∈ extract_skills "skills: ,x:y" := by
  refine ⟨by decide, by decide⟩

/-- C8 (amended): skill and focus extraction scan each lowercased line for
the keyword; a keyword line with a colon contributes the trimmed
comma-splits of the text between the first and second colons — all of them,
empty tokens included — and the lines' contributions are concatenated in
order of appearance. -/
theorem extract_matches_line_tokens (analysis : String) :
    extract_skills analysis = extractSpec "skill" analysis ∧
    extract_focus_areas analysis = extractSpec "focus" analysis := by
  constructor
  · exact (extract_fold "skill" (pySplit (pyLower analysis) (Char.ofNat 10)) []).trans
      (by simp [extractSpec])
  · exact (extract_fold "focus" (pySplit (pyLower analysis) (Char.ofNat 10)) []).trans
      (by simp [extractSpec])
